import Mathlib

/-!
Shallow embedding of the KMFlow hook DLL's SPSC ring buffer and its
lifecycle state machine, translated from
`src/agent/windows/src/KMFlowAgent.HookDll/ringbuffer.h` and
`src/agent/windows/src/KMFlowAgent.HookDll/hook.c`.

The C code is sequentialized: the interlocked reads/compare-exchanges are
embedded as plain reads and conditional stores (a compare-exchange whose
comparand was just read from the same location always succeeds in a
single-thread interleaving).  32-bit unsigned arithmetic is modelled on
`Nat` with an explicit `% 2 ^ 32` where the C code can wrap
(`capacity <<= 1` in `RingBuffer_Init`); the indices `head`/`tail` are only
ever stored masked, so they are embedded as plain `Nat`s.
-/

namespace KMFlow

/-- Event type discriminator (`HookEventType` in ringbuffer.h). -/
inductive HookEventType where
  | keyboard
  | mouse
  deriving DecidableEq

/-- Keyboard event data from WH_KEYBOARD_LL (`KeyboardEventData`). -/
structure KeyboardEventData where
  vkCode : Nat
  scanCode : Nat
  flags : Nat
  action : Nat
  deriving DecidableEq

/-- Mouse event data from WH_MOUSE_LL (`MouseEventData`). -/
structure MouseEventData where
  x : Int
  y : Int
  mouseData : Nat
  action : Nat
  deriving DecidableEq

/-- The C union of the two payloads, embedded as a sum. -/
inductive HookEventPayload where
  | keyboard (data : KeyboardEventData)
  | mouse (data : MouseEventData)
  deriving DecidableEq

/-- Union event structure written to the ring buffer (`HookEvent`). -/
structure HookEvent where
  type : HookEventType
  timestamp_ms : Nat
  payload : HookEventPayload
  deriving DecidableEq

/-- The all-zero event: `RingBuffer_Init` allocates with `HEAP_ZERO_MEMORY`,
so fresh slots read as zeroed storage. -/
def zeroEvent : HookEvent :=
  { type := .keyboard
    timestamp_ms := 0
    payload := .keyboard { vkCode := 0, scanCode := 0, flags := 0, action := 0 } }

/-- Ring buffer state (`RingBuffer` in ringbuffer.h).  The slot array is a
list of length `capacity`; `head` is the write position, `tail` the read
position. -/
structure RingBuffer where
  buffer : List HookEvent
  capacity : Nat
  mask : Nat
  head : Nat
  tail : Nat
  deriving DecidableEq

/-- 2^32, the modulus of the C `uint32_t` arithmetic. -/
def UINT32_MOD : Nat := 2 ^ 32

/-- One iteration of the capacity-rounding loop body: `capacity <<= 1` on a
`uint32_t`. -/
def capStep (c : Nat) : Nat := (c * 2) % UINT32_MOD

/-- The `while (capacity < requestedCapacity) capacity <<= 1;` loop of
`RingBuffer_Init`, with explicit fuel.  `none` means the fuel ran out; fuel
32 is enough for every requested capacity on which the C loop terminates
(see `roundCapLoop_spec` and `roundCapLoop_gt_none`). -/
def roundCapLoop : Nat → Nat → Nat → Option Nat
  | 0, _, _ => none
  | fuel + 1, c, n => if c < n then roundCapLoop fuel (capStep c) n else some c

/-- The capacity-rounding loop of `RingBuffer_Init` terminates on input `n`
iff some iterate of its body, started from 1, falsifies the guard
`capacity < n`. -/
def LoopTerminates (n : Nat) : Prop := ∃ k, n ≤ capStep^[k] 1

/-- `RingBuffer_Init` (with the allocation succeeding): rounds the requested
capacity up with the doubling loop, allocates `capacity` zeroed slots and
zeroes both indices.  `none` models the loop never terminating (fuel 32 is
exact, see `roundCapLoop_gt_none`). -/
def RingBuffer_Init (requestedCapacity : Nat) : Option RingBuffer :=
  (roundCapLoop 32 1 requestedCapacity).map fun capacity =>
    { buffer := List.replicate capacity zeroEvent
      capacity := capacity
      mask := capacity - 1
      head := 0
      tail := 0 }

/-- `RingBuffer_Destroy` on the owning pointer: frees the slot array when it
is non-null and nulls it.  The second component counts the `HeapFree` calls
performed (0 or 1). -/
def RingBuffer_Destroy (rbuf : Option RingBuffer) : Option RingBuffer × Nat :=
  match rbuf with
  | some _ => (none, 1)
  | none => (none, 0)

/-- `RingBuffer_Write`: computes `nextHead`, advances `tail` by a
compare-exchange when the buffer is full, stores the event at
`head & mask` and publishes `nextHead`. -/
def RingBuffer_Write (rb : RingBuffer) (evt : HookEvent) : RingBuffer :=
  let head := rb.head
  let nextHead := (head + 1) &&& rb.mask
  let tail := rb.tail
  let rb1 :=
    if nextHead = tail then
      { rb with tail := if rb.tail = tail then (tail + 1) &&& rb.mask else rb.tail }
    else rb
  { rb1 with buffer := rb1.buffer.set (head &&& rb1.mask) evt, head := nextHead }

/-- The `while (tail != head && count < maxEvents)` loop of
`RingBuffer_ReadBatch`: `remaining` is `maxEvents - count`, `acc` the events
copied so far; returns the copied events and the final local `tail`. -/
def readBatchLoop (rb : RingBuffer) (head : Nat) :
    Nat → Nat → List HookEvent → List HookEvent × Nat
  | tail, 0, acc => (acc, tail)
  | tail, remaining + 1, acc =>
    if tail = head then (acc, tail)
    else
      readBatchLoop rb head ((tail + 1) &&& rb.mask) remaining
        (acc ++ [rb.buffer.getD (tail &&& rb.mask) zeroEvent])

/-- `RingBuffer_ReadBatch`: snapshots both indices, copies events while the
buffer is non-empty and fewer than `maxEvents` were copied, and publishes
the final `tail` only when at least one event was copied.  Returns the
copied events and the resulting buffer state. -/
def RingBuffer_ReadBatch (rb : RingBuffer) (maxEvents : Nat) :
    List HookEvent × RingBuffer :=
  let tail := rb.tail
  let head := rb.head
  let result := readBatchLoop rb head tail maxEvents []
  if 0 < result.fst.length then (result.fst, { rb with tail := result.snd })
  else (result.fst, rb)

/-- Writing a whole sequence of events, one `RingBuffer_Write` per event. -/
def writeAll (rb : RingBuffer) (evts : List HookEvent) : RingBuffer :=
  evts.foldl RingBuffer_Write rb

/-- One consumer- or producer-side operation on the ring buffer. -/
inductive RBOp where
  | write (evt : HookEvent)
  | readBatch (maxEvents : Nat)

/-- Run one operation, keeping the resulting buffer state. -/
def execOp (rb : RingBuffer) : RBOp → RingBuffer
  | .write evt => RingBuffer_Write rb evt
  | .readBatch m => (RingBuffer_ReadBatch rb m).snd

/-- Run a sequence of operations. -/
def execOps (rb : RingBuffer) (ops : List RBOp) : RingBuffer :=
  ops.foldl execOp rb

/-- Number of unread events a state holds: the index distance from `tail`
forward to `head`, accounting for wraparound. -/
def dist (rb : RingBuffer) : Nat :=
  if rb.tail ≤ rb.head then rb.head - rb.tail else rb.head + rb.capacity - rb.tail

/-- The retained (written and not yet read) events of a state, oldest
first: the slots from `tail` forward up to (excluding) `head`. -/
def contents (rb : RingBuffer) : List HookEvent :=
  (List.range (dist rb)).map fun i =>
    rb.buffer.getD ((rb.tail + i) % rb.capacity) zeroEvent

/-- Well-formedness of a ring buffer state, as `RingBuffer_Init` establishes
it: power-of-two capacity, `mask = capacity - 1`, both indices in range and
the slot array of length `capacity`. -/
def WF (rb : RingBuffer) (k : Nat) : Prop :=
  rb.capacity = 2 ^ k ∧ rb.mask = 2 ^ k - 1 ∧ rb.head < 2 ^ k ∧
    rb.tail < 2 ^ k ∧ rb.buffer.length = 2 ^ k

/-- `c` is the least power of two that is at least `n`. -/
def IsLeastPowTwoGE (n c : Nat) : Prop :=
  (∃ j, c = 2 ^ j) ∧ n ≤ c ∧ ∀ d, (∃ j, d = 2 ^ j) → n ≤ d → c ≤ d

/-- The hook DLL's module state (the `g_*` globals of hook.c).  The two hook
handles are abstracted to "held or not"; the ring buffer global is `some`
exactly when its slot-array pointer is non-null. -/
structure HookState where
  g_initialized : Bool
  g_keyboardHook : Bool
  g_mouseHook : Bool
  g_ringBuffer : Option RingBuffer
  deriving DecidableEq

/-- `HookDll_Initialize`: returns TRUE at once when already initialized;
otherwise allocates the ring buffer, registers both hooks, and on any
registration failure unhooks whichever succeeded, destroys the buffer and
returns FALSE.  `allocOk` is the `HeapAlloc` outcome, `kbHookOk` and
`mouseHookOk` the two `SetWindowsHookExW` outcomes. -/
def HookDll_Initialize (allocOk kbHookOk mouseHookOk : Bool) (bufferCapacity : Nat)
    (s : HookState) : Bool × HookState :=
  if s.g_initialized then (true, s)
  else
    match (if allocOk then RingBuffer_Init bufferCapacity else none) with
    | none => (false, { s with g_ringBuffer := none })
    | some rb =>
      let s1 := { s with g_ringBuffer := some rb
                         g_keyboardHook := kbHookOk
                         g_mouseHook := mouseHookOk }
      if !s1.g_keyboardHook || !s1.g_mouseHook then
        (false, { s1 with g_keyboardHook := false
                          g_mouseHook := false
                          g_ringBuffer := (RingBuffer_Destroy s1.g_ringBuffer).fst })
      else
        (true, { s1 with g_initialized := true })

/-- `HookDll_Shutdown`: a no-op when not initialized; otherwise clears the
initialized flag first, unhooks both hooks and destroys the ring buffer.
The second component counts the `HeapFree` calls the ring buffer destroy
performed. -/
def HookDll_Shutdown (s : HookState) : HookState × Nat :=
  if !s.g_initialized then (s, 0)
  else
    let destroyed := RingBuffer_Destroy s.g_ringBuffer
    ({ s with g_initialized := false
              g_keyboardHook := false
              g_mouseHook := false
              g_ringBuffer := destroyed.fst }, destroyed.snd)

/-! ## Concrete states used by witnesses and counterexamples -/

/-- A keyboard event tagged with `i` in its timestamp and key code. -/
def mkKb (i : Nat) : HookEvent :=
  { type := .keyboard
    timestamp_ms := i
    payload := .keyboard { vkCode := i, scanCode := 0, flags := 0, action := 0 } }

/-- Twenty distinct keyboard events, tagged 1..20. -/
def es20 : List HookEvent := (List.range 20).map fun i => mkKb (i + 1)

/-- The fresh buffer `RingBuffer_Init 10` yields: effective capacity 16. -/
def rb16 : RingBuffer :=
  { buffer := List.replicate 16 zeroEvent, capacity := 16, mask := 15, head := 0, tail := 0 }

/-- The fresh buffer `RingBuffer_Init 4` yields. -/
def rb4 : RingBuffer :=
  { buffer := List.replicate 4 zeroEvent, capacity := 4, mask := 3, head := 0, tail := 0 }

/-- The fresh buffer `RingBuffer_Init 1` yields: effective capacity 1. -/
def rbCap1 : RingBuffer :=
  { buffer := [zeroEvent], capacity := 1, mask := 0, head := 0, tail := 0 }

/-- The module state before any call. -/
def freshHookState : HookState :=
  { g_initialized := false, g_keyboardHook := false, g_mouseHook := false,
    g_ringBuffer := none }

/-- A module state after a successful HookDll_Initialize. -/
def activeHookState : HookState :=
  { g_initialized := true, g_keyboardHook := true, g_mouseHook := true,
    g_ringBuffer := some rb4 }

/-! ## The capacity-rounding loop -/

lemma pow_le_two_pow_31 {j : Nat} (hj : j ≤ 31) : 2 ^ j ≤ 2 ^ 31 :=
  Nat.pow_le_pow_right (by norm_num) hj

lemma capStep_pow_small {j : Nat} (hj : j + 1 ≤ 31) : capStep (2 ^ j) = 2 ^ (j + 1) := by
  unfold capStep UINT32_MOD
  rw [← pow_succ]
  exact Nat.mod_eq_of_lt (Nat.pow_lt_pow_right (by norm_num) (by omega))

lemma capStep_top : capStep (2 ^ 31) = 0 := by
  unfold capStep UINT32_MOD
  rw [← pow_succ]
  exact Nat.mod_self _

/-- With the guard value above 2^31 the loop body cycles through powers of
two and then sticks at 0, so no fuel makes the loop exit: the C loop does
not terminate there. -/
lemma roundCapLoop_gt_none (n : Nat) (hn : 2 ^ 31 < n) :
    ∀ fuel c, (c = 0 ∨ ∃ j, j ≤ 31 ∧ c = 2 ^ j) → roundCapLoop fuel c n = none := by
  intro fuel
  induction fuel with
  | zero => intro c _; rfl
  | succ fuel ih =>
    intro c hc
    have hclt : c < n := by
      rcases hc with h0 | ⟨j, hj, rfl⟩
      · omega
      · exact lt_of_le_of_lt (pow_le_two_pow_31 hj) hn
    rw [roundCapLoop, if_pos hclt]
    apply ih
    rcases hc with h0 | ⟨j, hj, rfl⟩
    · subst h0; left; simp [capStep]
    · by_cases hj31 : j + 1 ≤ 31
      · exact Or.inr ⟨j + 1, hj31, capStep_pow_small hj31⟩
      · have hj' : j = 31 := by omega
        subst hj'
        exact Or.inl capStep_top

/-- Full characterisation of the rounding loop on the terminating range:
starting from `2 ^ j` with enough fuel it returns the least power of two
that is at least `n`. -/
lemma roundCapLoop_spec :
    ∀ fuel j n, n ≤ 2 ^ 31 → j ≤ 31 → 32 - j ≤ fuel → (∀ i, i < j → 2 ^ i < n) →
      ∃ k, j ≤ k ∧ k ≤ 31 ∧ roundCapLoop fuel (2 ^ j) n = some (2 ^ k) ∧
        n ≤ 2 ^ k ∧ ∀ i, i < k → 2 ^ i < n := by
  intro fuel
  induction fuel with
  | zero => intro j n _ hj hfuel _; exfalso; omega
  | succ fuel ih =>
    intro j n hn hj hfuel hlow
    by_cases hguard : 2 ^ j < n
    · have hjlt : j < 31 := by
        rcases Nat.lt_or_ge j 31 with h | h
        · exact h
        · exfalso
          have hj31 : j = 31 := by omega
          subst hj31
          omega
      rw [roundCapLoop, if_pos hguard, capStep_pow_small (by omega)]
      have hlow' : ∀ i, i < j + 1 → 2 ^ i < n := by
        intro i hi
        rcases Nat.lt_succ_iff_lt_or_eq.mp hi with h | h
        · exact hlow i h
        · subst h; exact hguard
      obtain ⟨k, hk1, hk2, hk3, hk4, hk5⟩ :=
        ih (j + 1) n hn (by omega) (by omega) hlow'
      exact ⟨k, by omega, hk2, hk3, hk4, hk5⟩
    · rw [roundCapLoop, if_neg hguard]
      exact ⟨j, Nat.le_refl j, hj, rfl, by omega, hlow⟩

lemma capStep_iterate (k : Nat) : capStep^[k] 1 = if k ≤ 31 then 2 ^ k else 0 := by
  induction k with
  | zero => simp
  | succ k ih =>
    rw [Function.iterate_succ_apply', ih]
    by_cases hk : k ≤ 31
    · rw [if_pos hk]
      by_cases hk30 : k ≤ 30
      · rw [if_pos (by omega : k + 1 ≤ 31), capStep_pow_small (by omega)]
      · have hk31 : k = 31 := by omega
        subst hk31
        rw [if_neg (by omega), capStep_top]
    · rw [if_neg hk, if_neg (by omega)]
      simp [capStep]

/-- C10 (confirmed): for 1 ≤ n < 2^32, the capacity-rounding loop of
`RingBuffer_Init` terminates exactly when n ≤ 2^31 — the doubling of the
32-bit capacity starting at 1 reaches a value ≥ n before wrapping to 0 —
and on that range it indeed exits with a capacity ≥ n (fuel 32 suffices).
The precondition n ≤ 2^31 is necessary: above it no iterate of the loop
body falsifies the guard. -/
theorem roundCap_terminates_iff (n : Nat) (h1 : 1 ≤ n) (h2 : n < 2 ^ 32) :
    (LoopTerminates n ↔ n ≤ 2 ^ 31) ∧
      (n ≤ 2 ^ 31 → ∃ c, n ≤ c ∧ roundCapLoop 32 1 n = some c) := by
  constructor
  · constructor
    · rintro ⟨k, hk⟩
      rw [capStep_iterate] at hk
      by_cases hk31 : k ≤ 31
      · rw [if_pos hk31] at hk
        exact le_trans hk (pow_le_two_pow_31 hk31)
      · rw [if_neg hk31] at hk
        omega
    · intro hle
      refine ⟨31, ?_⟩
      rw [capStep_iterate, if_pos (by omega)]
      exact hle
  · intro hle
    obtain ⟨k, -, -, hk3, hk4, -⟩ :=
      roundCapLoop_spec 32 0 n hle (by omega) (by omega)
        (fun i hi => absurd hi (Nat.not_lt_zero i))
    rw [pow_zero] at hk3
    exact ⟨2 ^ k, hk4, hk3⟩

/-- Witness for C10 at n = 5. -/
theorem roundCap_terminates_iff_witness :
    ((1 ≤ 5 ∧ 5 < 2 ^ 32) ∧
      ((LoopTerminates 5 ↔ 5 ≤ 2 ^ 31) ∧
        (5 ≤ 2 ^ 31 → ∃ c, 5 ≤ c ∧ roundCapLoop 32 1 5 = some c))) :=
  ⟨⟨by norm_num, by norm_num⟩, roundCap_terminates_iff 5 (by norm_num) (by norm_num)⟩

/-! ## RingBuffer_Init -/

lemma init_le (n : Nat) (rb : RingBuffer) (h : RingBuffer_Init n = some rb) :
    n ≤ 2 ^ 31 := by
  by_contra hlt
  rw [RingBuffer_Init,
    roundCapLoop_gt_none n (by omega) 32 1 (Or.inr ⟨0, by omega, rfl⟩)] at h
  simp at h

/-- What a successful `RingBuffer_Init` returns, field by field. -/
lemma init_shape (n : Nat) (rb : RingBuffer) (h : RingBuffer_Init n = some rb) :
    ∃ k, k ≤ 31 ∧
      rb = { buffer := List.replicate (2 ^ k) zeroEvent, capacity := 2 ^ k,
             mask := 2 ^ k - 1, head := 0, tail := 0 } ∧
      n ≤ 2 ^ k ∧ ∀ i, i < k → 2 ^ i < n := by
  obtain ⟨k, -, hk31, hloop, hnk, hlow⟩ :=
    roundCapLoop_spec 32 0 n (init_le n rb h) (by omega) (by omega)
      (fun i hi => absurd hi (Nat.not_lt_zero i))
  rw [pow_zero] at hloop
  rw [RingBuffer_Init, hloop] at h
  simp only [Option.map_some'] at h
  exact ⟨k, hk31, (Option.some.inj h).symm, hnk, hlow⟩

/-- C4 (amended: for every requested capacity n ≤ 2^31): `RingBuffer_Init`
allocates the least power of two ≥ max(1, n) slots and zeroes both indices;
requested capacity 0 yields capacity 1 and does not fail.  (For n > 2^31
the rounding loop never terminates, see `init_diverges_above_2_pow_31`.) -/
theorem init_capacity_least_pow (n : Nat) (hn : n ≤ 2 ^ 31) :
    ∃ rb, RingBuffer_Init n = some rb ∧ IsLeastPowTwoGE (max 1 n) rb.capacity ∧
      rb.head = 0 ∧ rb.tail = 0 := by
  obtain ⟨k, -, -, hloop, hnk, hlow⟩ :=
    roundCapLoop_spec 32 0 n hn (by omega) (by omega)
      (fun i hi => absurd hi (Nat.not_lt_zero i))
  rw [pow_zero] at hloop
  refine ⟨_, by rw [RingBuffer_Init, hloop]; rfl, ⟨⟨k, rfl⟩, ?_, ?_⟩, rfl, rfl⟩
  · have h1 : 1 ≤ 2 ^ k := Nat.one_le_two_pow
    simp only [max_le_iff]
    exact ⟨h1, hnk⟩
  · rintro d ⟨m, rfl⟩ hd
    have hnm : n ≤ 2 ^ m := le_trans (le_max_right 1 n) hd
    have hkm : k ≤ m := by
      by_contra hmk
      have := hlow m (by omega)
      omega
    exact Nat.pow_le_pow_right (by norm_num) hkm

/-- Witness for C4 at requested capacity 0: does not fail, capacity is the
least power of two ≥ max(1, 0) = 1, both indices zero. -/
theorem init_capacity_least_pow_witness :
    (0 : Nat) ≤ 2 ^ 31 ∧
      (∃ rb, RingBuffer_Init 0 = some rb ∧ IsLeastPowTwoGE (max 1 0) rb.capacity ∧
        rb.head = 0 ∧ rb.tail = 0) :=
  ⟨by norm_num, init_capacity_least_pow 0 (by norm_num)⟩

/-- C4 counterexample: at requested capacity 2^31 + 1 the claim fails — the
rounding loop never reaches a capacity ≥ n (it wraps to 0 and sticks, see
`roundCapLoop_gt_none`), so `RingBuffer_Init` allocates nothing; in the
fuel-indexed embedding the loop exhausts any fuel and yields `none`. -/
theorem init_diverges_above_2_pow_31 : RingBuffer_Init (2 ^ 31 + 1) = none := by
  rw [RingBuffer_Init,
    roundCapLoop_gt_none (2 ^ 31 + 1) (by omega) 32 1 (Or.inr ⟨0, by omega, rfl⟩)]
  rfl

/-! ## Lifecycle: HookDll_Initialize and HookDll_Shutdown -/

/-- C5 (confirmed): when the session is uninitialized, the allocation
succeeds and either hook registration fails, `HookDll_Initialize` rolls
back completely: it returns failure and leaves no hook handle, no buffer
and the initialized flag clear. -/
theorem initialize_rollback (allocOk kbHookOk mouseHookOk : Bool) (bufferCapacity : Nat)
    (s : HookState) (rb : RingBuffer)
    (huninit : s.g_initialized = false)
    (hfail : kbHookOk = false ∨ mouseHookOk = false)
    (halloc : (if allocOk then RingBuffer_Init bufferCapacity else none) = some rb) :
    HookDll_Initialize allocOk kbHookOk mouseHookOk bufferCapacity s =
      (false, { g_initialized := false, g_keyboardHook := false,
                g_mouseHook := false, g_ringBuffer := none }) := by
  obtain ⟨gi, gk, gm, gr⟩ := s
  simp only [HookState.g_initialized] at huninit
  subst huninit
  rw [HookDll_Initialize]
  simp only [Bool.false_eq_true, if_false, halloc]
  rcases hfail with h | h <;> subst h <;> simp [RingBuffer_Destroy]

/-- Witness for C5: fresh state, allocation succeeds, mouse hook fails. -/
theorem initialize_rollback_witness :
    freshHookState.g_initialized = false ∧
      ((true : Bool) = false ∨ (false : Bool) = false) ∧
      (if true then RingBuffer_Init 4 else none) = some rb4 ∧
      HookDll_Initialize true true false 4 freshHookState =
        (false, { g_initialized := false, g_keyboardHook := false,
                  g_mouseHook := false, g_ringBuffer := none }) :=
  ⟨rfl, Or.inr rfl, by decide,
    initialize_rollback true true false 4 freshHookState rb4 rfl (Or.inr rfl) (by decide)⟩

/-- C7 (confirmed): calling `HookDll_Initialize` while already initialized
returns success immediately and changes nothing: no re-allocation, no
re-registration, the whole module state is unchanged. -/
theorem initialize_idempotent_active (allocOk kbHookOk mouseHookOk : Bool)
    (bufferCapacity : Nat) (s : HookState) (hactive : s.g_initialized = true) :
    HookDll_Initialize allocOk kbHookOk mouseHookOk bufferCapacity s = (true, s) := by
  rw [HookDll_Initialize, if_pos hactive]

/-- Witness for C7: a second initialize right after a successful one. -/
theorem initialize_idempotent_active_witness :
    activeHookState.g_initialized = true ∧
      HookDll_Initialize true true true 4 activeHookState = (true, activeHookState) :=
  ⟨rfl, initialize_idempotent_active true true true 4 activeHookState rfl⟩

/-- C8 (confirmed): `HookDll_Shutdown` is idempotent — on any state with the
initialized flag clear it is a no-op performing no free, a second shutdown
right after a first one is a no-op performing no free, and a single
shutdown frees the buffer at most once. -/
theorem shutdown_idempotent (s : HookState) :
    HookDll_Shutdown { s with g_initialized := false } =
      ({ s with g_initialized := false }, 0) ∧
      HookDll_Shutdown (HookDll_Shutdown s).fst = ((HookDll_Shutdown s).fst, 0) ∧
      (HookDll_Shutdown s).snd ≤ 1 := by
  obtain ⟨gi, gk, gm, gr⟩ := s
  refine ⟨rfl, ?_, ?_⟩ <;>
    cases gi <;> cases gr <;> simp [HookDll_Shutdown, RingBuffer_Destroy]

/-! ## RingBuffer_ReadBatch on an empty channel -/

/-- C6 (confirmed): on an empty channel (read index equal to write index)
`RingBuffer_ReadBatch` returns no events and leaves the state — both
indices included — unchanged: the read index is published only when at
least one event was copied. -/
theorem readBatch_empty (rb : RingBuffer) (maxEvents : Nat)
    (hempty : rb.tail = rb.head) :
    RingBuffer_ReadBatch rb maxEvents = ([], rb) := by
  cases maxEvents with
  | zero => simp [RingBuffer_ReadBatch, readBatchLoop]
  | succ m => simp [RingBuffer_ReadBatch, readBatchLoop, hempty]

/-- Witness for C6 on a fresh capacity-4 buffer. -/
theorem readBatch_empty_witness :
    rb4.tail = rb4.head ∧ RingBuffer_ReadBatch rb4 5 = ([], rb4) :=
  ⟨rfl, readBatch_empty rb4 5 rfl⟩

/-! ## C2: the concrete 20-writes example -/

/-- C2 (confirmed): requested capacity 10 gives effective capacity 16;
writing the 20 distinct keyboard events `es20` into the fresh channel and
reading a batch of 16 returns exactly the last 15 events written (the
first 5 are gone — one slot is reserved), in original write order. -/
theorem init10_write20_read16 :
    RingBuffer_Init 10 = some rb16 ∧ rb16.capacity = 16 ∧
      es20.length = 20 ∧ es20.Nodup ∧
      (RingBuffer_ReadBatch (writeAll rb16 es20) 16).fst = es20.drop 5 := by
  refine ⟨by decide, rfl, by decide, by decide, by decide⟩

/-! ## Masking and small-modulus helpers -/

lemma and_mask_lt (x k : Nat) : x &&& (2 ^ k - 1) < 2 ^ k := by
  rw [Nat.and_pow_two_sub_one_eq_mod]
  exact Nat.mod_lt _ (Nat.two_pow_pos k)

lemma and_mask_of_lt {x k : Nat} (h : x < 2 ^ k) : x &&& (2 ^ k - 1) = x := by
  rw [Nat.and_pow_two_sub_one_eq_mod]
  exact Nat.mod_eq_of_lt h

lemma mod_two_cases (a c : Nat) (h : a < 2 * c) :
    a % c = if a < c then a else a - c := by
  by_cases hac : a < c
  · rw [if_pos hac, Nat.mod_eq_of_lt hac]
  · rw [if_neg hac, Nat.mod_eq_sub_mod (by omega), Nat.mod_eq_of_lt (by omega)]

lemma add_mod_inj {t a b c : Nat} (ha : a < c) (hb : b < c)
    (h : (t + a) % c = (t + b) % c) : a = b := by
  have h1 : a ≡ b [MOD c] := Nat.ModEq.add_left_cancel' t h
  have h2 : a % c = b % c := h1
  rwa [Nat.mod_eq_of_lt ha, Nat.mod_eq_of_lt hb] at h2

lemma getD_set_self {α : Type} (l : List α) (i : Nat) (a d : α) (h : i < l.length) :
    (l.set i a).getD i d = a := by
  simp [List.getD_eq_getElem?_getD, List.getElem?_set_self h]

lemma getD_set_ne {α : Type} (l : List α) (i j : Nat) (a d : α) (h : i ≠ j) :
    (l.set i a).getD j d = l.getD j d := by
  simp [List.getD_eq_getElem?_getD, List.getElem?_set_ne h]

lemma map_range_getD {α : Type} (es : List α) (d : α) :
    (List.range es.length).map (fun i => es.getD i d) = es := by
  induction es with
  | nil => rfl
  | cons e rest ih =>
    rw [List.length_cons, List.range_succ_eq_map, List.map_cons, List.map_map]
    simp only [List.getD_cons_zero]
    have hcomp : (List.range rest.length).map ((fun i => (e :: rest).getD i d) ∘ Nat.succ)
        = (List.range rest.length).map (fun i => rest.getD i d) := by
      apply List.map_congr_left
      intro i _
      simp
    rw [hcomp, ih]

/-! ## The effect of a run of writes on a fresh buffer -/

/-- Setting consecutive slots `i, i+1, ...` to the elements of a list. -/
def setSeq {α : Type} (buf : List α) (i : Nat) : List α → List α
  | [] => buf
  | e :: rest => setSeq (buf.set i e) (i + 1) rest

lemma setSeq_length {α : Type} (es : List α) (buf : List α) (i : Nat) :
    (setSeq buf i es).length = buf.length := by
  induction es generalizing buf i with
  | nil => rfl
  | cons e rest ih => simp [setSeq, ih]

lemma setSeq_getD {α : Type} (es : List α) (buf : List α) (i j : Nat) (d : α)
    (hle : i + es.length ≤ buf.length) :
    (setSeq buf i es).getD j d =
      if i ≤ j ∧ j < i + es.length then es.getD (j - i) d else buf.getD j d := by
  induction es generalizing buf i with
  | nil =>
    simp only [setSeq, List.length_nil]
    rw [if_neg (by omega)]
  | cons e rest ih =>
    simp only [setSeq, List.length_cons] at hle ⊢
    rw [ih (buf.set i e) (i + 1) (by simp only [List.length_set]; omega)]
    by_cases h1 : i + 1 ≤ j ∧ j < i + 1 + rest.length
    · rw [if_pos h1, if_pos (by omega)]
      have hj : j - i = (j - (i + 1)) + 1 := by omega
      rw [hj, List.getD_cons_succ]
    · rw [if_neg h1]
      by_cases h2 : j = i
      · subst h2
        rw [getD_set_self buf j e d (by omega), if_pos (by omega)]
        simp
      · rw [if_neg (by omega), getD_set_ne buf i j e d (fun he => h2 he.symm)]

/-- A run of writes that stays strictly below the wrap point (tail at 0,
final head < capacity) just stores the events in consecutive slots and
advances `head`; the drop-oldest branch never fires. -/
lemma writeAll_steps (es : List HookEvent) (rb : RingBuffer) (k : Nat)
    (hmask : rb.mask = 2 ^ k - 1) (htail : rb.tail = 0)
    (hroom : rb.head + es.length < 2 ^ k) :
    writeAll rb es = { rb with buffer := setSeq rb.buffer rb.head es,
                               head := rb.head + es.length } := by
  induction es generalizing rb with
  | nil => simp [writeAll, setSeq]
  | cons e rest ih =>
    have hh1 : rb.head + 1 < 2 ^ k := by
      simp only [List.length_cons] at hroom
      omega
    have hh0 : rb.head < 2 ^ k := by omega
    have hstep : RingBuffer_Write rb e =
        { rb with buffer := rb.buffer.set rb.head e, head := rb.head + 1 } := by
      simp only [RingBuffer_Write, hmask, htail, and_mask_of_lt hh1, and_mask_of_lt hh0]
      rw [if_neg (by omega)]
      simp only [hmask, htail, and_mask_of_lt hh0]
    show writeAll rb (e :: rest) = _
    rw [writeAll, List.foldl_cons, ← writeAll, hstep,
      ih { rb with buffer := rb.buffer.set rb.head e, head := rb.head + 1 }
        hmask htail (by simp only [List.length_cons] at hroom ⊢; omega)]
    simp only [setSeq, List.length_cons]
    congr 1
    omega

/-! ## The effect of a batch read that does not wrap -/

lemma readBatchLoop_nowrap (rb : RingBuffer) (k : Nat) (hmask : rb.mask = 2 ^ k - 1)
    (h : Nat) (hh : h < 2 ^ k) :
    ∀ r t acc, t ≤ h →
      readBatchLoop rb h t r acc =
        (acc ++ (List.range (min r (h - t))).map
          (fun i => rb.buffer.getD (t + i) zeroEvent),
         t + min r (h - t)) := by
  intro r
  induction r with
  | zero =>
    intro t acc ht
    simp [readBatchLoop]
  | succ r ih =>
    intro t acc ht
    by_cases hth : t = h
    · subst hth
      simp [readBatchLoop]
    · have htlt : t < h := by omega
      rw [readBatchLoop, if_neg hth, hmask,
        and_mask_of_lt (show t < 2 ^ k by omega),
        and_mask_of_lt (show t + 1 < 2 ^ k by omega),
        ih (t + 1) _ (by omega)]
      have hmin : min (r + 1) (h - t) = min r (h - t - 1) + 1 := by omega
      rw [hmin]
      have hmap : (List.map Nat.succ (List.range (min r (h - t - 1)))).map
            (fun i => rb.buffer.getD (t + i) zeroEvent) =
          (List.range (min r (h - t - 1))).map
            (fun i => rb.buffer.getD (t + 1 + i) zeroEvent) := by
        rw [List.map_map]
        apply List.map_congr_left
        intro i _
        simp only [Function.comp_apply]
        congr 1
        omega
      rw [List.range_succ_eq_map, List.map_cons, hmap]
      simp only [Nat.add_zero, List.append_assoc, List.singleton_append,
        Prod.mk.injEq, List.append_cancel_left_eq]
      exact ⟨rfl, by omega⟩

lemma readBatch_nowrap (rb : RingBuffer) (k : Nat) (hmask : rb.mask = 2 ^ k - 1)
    (hh : rb.head < 2 ^ k) (ht : rb.tail ≤ rb.head) (m : Nat) :
    (RingBuffer_ReadBatch rb m).fst =
      (List.range (min m (rb.head - rb.tail))).map
        (fun i => rb.buffer.getD (rb.tail + i) zeroEvent) := by
  simp only [RingBuffer_ReadBatch,
    readBatchLoop_nowrap rb k hmask rb.head hh m rb.tail [] ht]
  split <;> simp

/-! ## C1: FIFO delivery of a run of writes -/

/-- C1 (amended: N ≤ capacity − 1 rather than N ≤ capacity): writing any
sequence of N events with N at most capacity − 1 into a freshly initialized
channel and then reading a batch of N returns exactly the written sequence
in order, with no event lost.  At N = capacity the first event is lost
(one slot is reserved to disambiguate full from empty), see
`fifo_at_capacity_fails`. -/
theorem fifo_below_capacity (n : Nat) (rb : RingBuffer) (es : List HookEvent)
    (hinit : RingBuffer_Init n = some rb) (hlen : es.length ≤ rb.capacity - 1) :
    (RingBuffer_ReadBatch (writeAll rb es) es.length).fst = es := by
  obtain ⟨k, -, hshape, -, -⟩ := init_shape n rb hinit
  subst hshape
  have hpos : 0 < 2 ^ k := Nat.two_pow_pos k
  have hlen' : es.length ≤ 2 ^ k - 1 := hlen
  rw [writeAll_steps es _ k rfl rfl (by show 0 + es.length < 2 ^ k; omega)]
  rw [readBatch_nowrap _ k rfl (show 0 + es.length < 2 ^ k by omega)
    (show (0 : Nat) ≤ 0 + es.length by omega) es.length]
  simp only [Nat.zero_add, Nat.sub_zero, Nat.min_self]
  have hpoint : ∀ i ∈ List.range es.length,
      (setSeq (List.replicate (2 ^ k) zeroEvent) 0 es).getD i zeroEvent =
        es.getD i zeroEvent := by
    intro i hi
    rw [List.mem_range] at hi
    rw [setSeq_getD es _ 0 i zeroEvent
      (by simp only [List.length_replicate]; omega)]
    rw [if_pos (by omega)]
    congr 1
  rw [List.map_congr_left hpoint, map_range_getD]

/-- Witness for C1 on a fresh capacity-4 buffer and two events. -/
theorem fifo_below_capacity_witness :
    RingBuffer_Init 4 = some rb4 ∧
      [mkKb 1, mkKb 2].length ≤ rb4.capacity - 1 ∧
      (RingBuffer_ReadBatch (writeAll rb4 [mkKb 1, mkKb 2])
        [mkKb 1, mkKb 2].length).fst = [mkKb 1, mkKb 2] :=
  ⟨by decide, by decide,
    fifo_below_capacity 4 rb4 [mkKb 1, mkKb 2] (by decide) (by decide)⟩

/-- C1 counterexample: a fresh channel of capacity 1 (requested capacity 1),
one write — so N = 1 = capacity — then readBatch 1: the returned sequence
is empty, not the written sequence, so "N ≤ capacity ⇒ no loss" fails at
N = capacity. -/
theorem fifo_at_capacity_fails :
    RingBuffer_Init 1 = some rbCap1 ∧ rbCap1.capacity = 1 ∧
      (RingBuffer_ReadBatch (writeAll rbCap1 [mkKb 7]) 1).fst = [] ∧
      (RingBuffer_ReadBatch (writeAll rbCap1 [mkKb 7]) 1).fst ≠ [mkKb 7] := by
  refine ⟨by decide, rfl, by decide, by decide⟩

/-! ## C9: both indices stay below the capacity -/

/-- Normal form of one write on a well-formed state. -/
lemma write_eq (rb : RingBuffer) (k : Nat) (hm : rb.mask = 2 ^ k - 1)
    (hh : rb.head < 2 ^ k) (evt : HookEvent) :
    RingBuffer_Write rb evt =
      { rb with
        buffer := rb.buffer.set rb.head evt
        head := (rb.head + 1) % 2 ^ k
        tail := if (rb.head + 1) % 2 ^ k = rb.tail then (rb.tail + 1) % 2 ^ k
                else rb.tail } := by
  by_cases hfull : (rb.head + 1) % 2 ^ k = rb.tail
  · simp [RingBuffer_Write, hm, Nat.and_pow_two_sub_one_eq_mod, Nat.mod_eq_of_lt hh, hfull]
  · simp [RingBuffer_Write, hm, Nat.and_pow_two_sub_one_eq_mod, Nat.mod_eq_of_lt hh, hfull]

lemma write_WF (rb : RingBuffer) (k : Nat) (hwf : WF rb k) (evt : HookEvent) :
    WF (RingBuffer_Write rb evt) k := by
  obtain ⟨hc, hm, hh, ht, hb⟩ := hwf
  rw [write_eq rb k hm hh evt]
  unfold WF
  refine ⟨hc, hm, Nat.mod_lt _ (Nat.two_pow_pos k), ?_, by simpa using hb⟩
  show (if (rb.head + 1) % 2 ^ k = rb.tail then (rb.tail + 1) % 2 ^ k else rb.tail) < 2 ^ k
  split
  · exact Nat.mod_lt _ (Nat.two_pow_pos k)
  · exact ht

lemma readBatchLoop_tail_lt (rb : RingBuffer) (k : Nat) (hm : rb.mask = 2 ^ k - 1)
    (h : Nat) :
    ∀ r t acc, t < 2 ^ k → (readBatchLoop rb h t r acc).snd < 2 ^ k := by
  intro r
  induction r with
  | zero =>
    intro t acc ht
    simpa [readBatchLoop] using ht
  | succ r ih =>
    intro t acc ht
    rw [readBatchLoop]
    split
    · exact ht
    · exact ih _ _ (by rw [hm]; exact and_mask_lt _ k)

lemma readBatch_WF (rb : RingBuffer) (k : Nat) (hwf : WF rb k) (m : Nat) :
    WF (RingBuffer_ReadBatch rb m).snd k := by
  obtain ⟨hc, hm, hh, ht, hb⟩ := hwf
  unfold WF
  simp only [RingBuffer_ReadBatch]
  split
  · exact ⟨hc, hm, hh, readBatchLoop_tail_lt rb k hm rb.head m rb.tail [] ht, hb⟩
  · exact ⟨hc, hm, hh, ht, hb⟩

lemma execOps_WF (ops : List RBOp) (rb : RingBuffer) (k : Nat) (hwf : WF rb k) :
    WF (execOps rb ops) k := by
  induction ops generalizing rb with
  | nil => exact hwf
  | cons op rest ih =>
    cases op with
    | write evt => exact ih _ (write_WF rb k hwf evt)
    | readBatch m => exact ih _ (readBatch_WF rb k hwf m)

/-- C9 (confirmed): starting from any successfully initialized channel,
after any sequence of writes and batch reads both stored indices lie in
[0, capacity): every stored index is already reduced by the mask. -/
theorem indices_in_range (n : Nat) (rb : RingBuffer) (ops : List RBOp)
    (hinit : RingBuffer_Init n = some rb) :
    (execOps rb ops).head < (execOps rb ops).capacity ∧
      (execOps rb ops).tail < (execOps rb ops).capacity := by
  obtain ⟨k, -, hshape, -, -⟩ := init_shape n rb hinit
  have hwf : WF rb k := by
    subst hshape
    exact ⟨rfl, rfl, Nat.two_pow_pos k, Nat.two_pow_pos k, by simp⟩
  obtain ⟨hc, -, hh, ht, -⟩ := execOps_WF ops rb k hwf
  rw [hc]
  exact ⟨hh, ht⟩

/-- Witness for C9: a concrete run of writes and reads on a fresh
capacity-4 channel. -/
theorem indices_in_range_witness :
    RingBuffer_Init 4 = some rb4 ∧
      ((execOps rb4 [RBOp.write (mkKb 1), RBOp.readBatch 1,
          RBOp.write (mkKb 2)]).head <
        (execOps rb4 [RBOp.write (mkKb 1), RBOp.readBatch 1,
          RBOp.write (mkKb 2)]).capacity ∧
       (execOps rb4 [RBOp.write (mkKb 1), RBOp.readBatch 1,
          RBOp.write (mkKb 2)]).tail <
        (execOps rb4 [RBOp.write (mkKb 1), RBOp.readBatch 1,
          RBOp.write (mkKb 2)]).capacity) :=
  ⟨by decide,
    indices_in_range 4 rb4 [RBOp.write (mkKb 1), RBOp.readBatch 1,
      RBOp.write (mkKb 2)] (by decide)⟩

/-! ## C3: write on a full buffer drops exactly the oldest event -/

/-- A full capacity-2 buffer: the state `RingBuffer_Write` leaves after one
write into the fresh buffer of `RingBuffer_Init 2`. -/
def rb2full : RingBuffer :=
  { buffer := [mkKb 1, zeroEvent], capacity := 2, mask := 1, head := 1, tail := 0 }

/-- C3 (amended: for capacity at least 2): on a full well-formed state
(`nextWrite == read`) `RingBuffer_Write` advances the read index by one
slot, discarding exactly the single oldest unread event, before storing
the new event, and has no error path: the retained sequence afterwards is
the previous retained sequence without its first (oldest) element, with
the new event appended.  (With capacity 1 the stored event is itself
immediately unreadable, see `write_full_capacity_one_fails`.) -/
theorem write_full_drops_oldest (rb : RingBuffer) (k : Nat) (evt : HookEvent)
    (hwf : WF rb k) (hk : 1 ≤ k)
    (hfull : (rb.head + 1) &&& rb.mask = rb.tail) :
    contents (RingBuffer_Write rb evt) = (contents rb).drop 1 ++ [evt] ∧
      (RingBuffer_Write rb evt).tail = (rb.tail + 1) &&& rb.mask := by
  obtain ⟨hc, hm, hh, ht, hb⟩ := hwf
  have h2C : 2 ≤ 2 ^ k := by
    calc (2 : Nat) = 2 ^ 1 := by norm_num
      _ ≤ 2 ^ k := Nat.pow_le_pow_right (by norm_num) hk
  have hfullmod : (rb.head + 1) % 2 ^ k = rb.tail := by
    rw [← Nat.and_pow_two_sub_one_eq_mod, ← hm]
    exact hfull
  have hwr : RingBuffer_Write rb evt =
      { rb with buffer := rb.buffer.set rb.head evt
                head := rb.tail
                tail := (rb.tail + 1) % 2 ^ k } := by
    rw [write_eq rb k hm hh evt, hfullmod, if_pos rfl]
  have hhead_idx : (rb.tail + (2 ^ k - 1)) % 2 ^ k = rb.head := by
    rw [← hfullmod, Nat.mod_add_mod,
      show rb.head + 1 + (2 ^ k - 1) = rb.head + 2 ^ k from by omega,
      Nat.add_mod_right, Nat.mod_eq_of_lt hh]
  have hdist : dist rb = 2 ^ k - 1 := by
    have hcase := mod_two_cases (rb.head + 1) (2 ^ k) (by omega)
    rw [hfullmod] at hcase
    unfold dist
    rw [hc]
    split at hcase <;> split <;> omega
  have hdistw : dist { rb with buffer := rb.buffer.set rb.head evt
                               head := rb.tail
                               tail := (rb.tail + 1) % 2 ^ k } = 2 ^ k - 1 := by
    have hcase := mod_two_cases (rb.tail + 1) (2 ^ k) (by omega)
    unfold dist
    simp only
    rw [hc]
    split at hcase <;> split <;> omega
  rw [hwr]
  refine ⟨?_, by rw [hm, Nat.and_pow_two_sub_one_eq_mod]⟩
  unfold contents
  rw [hdistw, hdist]
  simp only
  rw [hc]
  have hdrop : ((List.range (2 ^ k - 1)).map
        (fun i => rb.buffer.getD ((rb.tail + i) % 2 ^ k) zeroEvent)).drop 1 =
      (List.range (2 ^ k - 2)).map
        (fun i => rb.buffer.getD ((rb.tail + (i + 1)) % 2 ^ k) zeroEvent) := by
    rw [show 2 ^ k - 1 = (2 ^ k - 2) + 1 from by omega, List.range_succ_eq_map,
      List.map_cons, List.drop_one, List.tail_cons, List.map_map]
    apply List.map_congr_left
    intro i _
    simp only [Function.comp_apply, Nat.succ_eq_add_one]
  rw [hdrop,
    show 2 ^ k - 1 = (2 ^ k - 2) + 1 from by omega,
    List.range_succ, List.map_append, List.map_cons, List.map_nil]
  congr 1
  · apply List.map_congr_left
    intro i hi
    rw [List.mem_range] at hi
    rw [Nat.mod_add_mod, show rb.tail + 1 + i = rb.tail + (i + 1) from by omega]
    apply getD_set_ne
    intro heq
    have hij : i + 1 = 2 ^ k - 1 :=
      add_mod_inj (show i + 1 < 2 ^ k by omega) (show 2 ^ k - 1 < 2 ^ k by omega)
        (by rw [hhead_idx]; exact heq.symm)
    omega
  · have hlast : ((rb.tail + 1) % 2 ^ k + (2 ^ k - 2)) % 2 ^ k = rb.head := by
      rw [Nat.mod_add_mod,
        show rb.tail + 1 + (2 ^ k - 2) = rb.tail + (2 ^ k - 1) from by omega,
        hhead_idx]
    rw [hlast, getD_set_self rb.buffer rb.head evt zeroEvent (by omega)]

/-- Witness for C3: the full capacity-2 state `rb2full`; the write drops
the oldest event `mkKb 1` and retains exactly `[mkKb 2]`. -/
theorem write_full_drops_oldest_witness :
    (WF rb2full 1 ∧ 1 ≤ 1 ∧ (rb2full.head + 1) &&& rb2full.mask = rb2full.tail) ∧
      (contents (RingBuffer_Write rb2full (mkKb 2)) =
        (contents rb2full).drop 1 ++ [mkKb 2] ∧
       (RingBuffer_Write rb2full (mkKb 2)).tail = (rb2full.tail + 1) &&& rb2full.mask) :=
  ⟨⟨by unfold WF; decide, by decide, by decide⟩,
    write_full_drops_oldest rb2full 1 (mkKb 2) (by unfold WF; decide) (by decide)
      (by decide)⟩

/-- C3 counterexample: with capacity 1 the fresh state is full
(`nextWrite == read`), yet a write neither moves the read index nor makes
the retained set "previous minus oldest plus the new event": the new event
is not retained at all. -/
theorem write_full_capacity_one_fails :
    RingBuffer_Init 1 = some rbCap1 ∧
      (rbCap1.head + 1) &&& rbCap1.mask = rbCap1.tail ∧
      (RingBuffer_Write rbCap1 (mkKb 7)).tail = rbCap1.tail ∧
      contents (RingBuffer_Write rbCap1 (mkKb 7)) ≠
        (contents rbCap1).drop 1 ++ [mkKb 7] := by
  refine ⟨by decide, by decide, by decide, by decide⟩

end KMFlow
